import Mathlib

/-
Verification of the pros-depot incremental synchronization engine.

This file is a shallow embedding of the TypeScript sources of the
pros-depot GitHub action (src/utils.ts, src/main.ts, src/schema.ts).
Conventions of the embedding:
  * ISO 8601 timestamp strings are modelled by their parsed instant as an
    integer number of milliseconds since the epoch; the JavaScript
    comparison `new Date(s) > d` becomes integer comparison.
  * JavaScript `Map<string, BaseTemplate>` is modelled as an association
    list with unique keys; `new Map(pairs)` inserts pairs in order with
    overwrite-on-duplicate, `get` returns the value at the key, `delete`
    removes the key, `size` is the number of entries.
  * Functions that `throw` are modelled with `Except`; a possibly crashing
    field access (index out of bounds) is modelled with `Option`.
  * The zod record `z.record(z.string(), z.any())` for the external
    template metadata is modelled as an opaque association list; the code
    under verification only carries or discards it, never inspects it.
  * The octokit REST calls made by pushFile are modelled by an environment
    that supplies each response, and pushFile additionally returns the
    trace of requests it issued, so that theorems can speak about which
    API operations were attempted and with which payloads.
-/

namespace ProsDepot

/-- Metadata of a catalog entry; the only field is the location, the
natural key of the depot (schema.ts, BaseTemplateSchema.metadata). -/
structure TemplateMetadata where
  location : String
deriving DecidableEq, Repr

/-- BaseTemplate from schema.ts: one entry of the depot. The TypeScript
field named py/object (a fixed literal discriminator) is rendered here as
pyObject. -/
structure BaseTemplate where
  metadata : TemplateMetadata
  name : String
  pyObject : String
  supported_kernels : String
  target : String
  version : String
deriving DecidableEq, Repr

/-- Depot from schema.ts: a list of base templates. -/
abbrev Depot := List BaseTemplate

/-- The py/state payload of ExternalTemplateSchema from schema.ts. The
metadata record has opaque values in this model. -/
structure ExternalTemplateState where
  metadata : List (String × String)
  name : String
  supported_kernels : String
  system_files : List String
  target : String
  user_files : List String
  version : String
deriving DecidableEq, Repr

/-- ExternalTemplate from schema.ts. The TypeScript fields py/object and
py/state are rendered as pyObject and state. -/
structure ExternalTemplate where
  pyObject : String
  state : ExternalTemplateState
deriving DecidableEq, Repr

/-- DownloadableZip from utils.ts. -/
structure DownloadableZip where
  asset_id : Nat
  download_url : String
  updated_at : Int
  prerelease : Bool
  result : Option BaseTemplate
deriving DecidableEq, Repr

/-- One asset of a GitHub release, with the fields the code reads. -/
structure ReleaseAsset where
  id : Nat
  browser_download_url : String
  updated_at : Int
  name : String
deriving DecidableEq, Repr

/-- A GitHub release, with the fields the code reads. -/
structure Release where
  assets : List ReleaseAsset
  prerelease : Bool
deriving DecidableEq, Repr

/-- RepositoryIdentifier from utils.ts. -/
structure RepositoryIdentifier where
  owner : String
  repo : String
deriving DecidableEq, Repr

/-- Association-list model of the JavaScript Map from strings to base
templates. -/
abbrev DepotMap := List (String × BaseTemplate)

/-- Map.get: value stored at the key, if present. -/
def mapGet : DepotMap → String → Option BaseTemplate
  | [], _ => none
  | (k, v) :: rest, key => if k = key then some v else mapGet rest key

/-- Map.set: overwrite the value at an existing key in place, otherwise
append the new pair at the end. -/
def mapSet : DepotMap → String → BaseTemplate → DepotMap
  | [], k, v => [(k, v)]
  | (k2, v2) :: rest, k, v =>
    if k2 = k then (k, v) :: rest else (k2, v2) :: mapSet rest k v

/-- Map.delete: remove the entries stored at the key. -/
def mapDelete : DepotMap → String → DepotMap
  | [], _ => []
  | (k2, v) :: rest, k =>
    if k2 = k then mapDelete rest k else (k2, v) :: mapDelete rest k

/-- Embedding of `new Map(depot.map(item => [item.metadata.location, item]))`
as used by run and getCommitMessage. -/
def buildMap (d : Depot) : DepotMap :=
  d.foldl (fun m e => mapSet m e.metadata.location e) []

/-- Embedding of the JavaScript string endsWith test: the characters of
the suffix close the character list of the string. -/
def strEndsWith (s suffix : String) : Bool :=
  suffix.data.isSuffixOf s.data

/-- getDownloadableZips from utils.ts: keep the assets whose name ends in
.zip and turn each into a candidate with a null result. -/
def getDownloadableZips (release : Release) : List DownloadableZip :=
  (release.assets.filter (fun a => strEndsWith a.name ".zip")).map (fun a =>
    { asset_id := a.id
      download_url := a.browser_download_url
      updated_at := a.updated_at
      prerelease := release.prerelease
      result := none })

/-- hasBeenUpdatedAfter from utils.ts: the parsed updated_at instant is
strictly later than the target date. -/
def hasBeenUpdatedAfter (zip : DownloadableZip) (target_date : Int) : Bool :=
  zip.updated_at > target_date

/-- getPreviousResult from utils.ts: `depot_map.get(zip.download_url) ?? null`. -/
def getPreviousResult (zip : DownloadableZip) (depot_map : DepotMap) :
    Option BaseTemplate :=
  mapGet depot_map zip.download_url

/-- applyPreviousResult from utils.ts: functional update of the result
field, forcing null when the zip is strictly newer than the depot. -/
def applyPreviousResult (zip : DownloadableZip) (depot_map : DepotMap)
    (depot_last_updated : Int) : DownloadableZip :=
  { zip with
    result :=
      if hasBeenUpdatedAfter zip depot_last_updated then none
      else getPreviousResult zip depot_map }

/-- convertExternalTemplateToBaseTemplate from utils.ts. -/
def convertExternalTemplateToBaseTemplate (zip : DownloadableZip)
    (external_template : ExternalTemplate) : BaseTemplate :=
  let template_data := external_template.state
  { metadata := { location := zip.download_url }
    name := template_data.name
    pyObject := "pros.conductor.templates.base_template.BaseTemplate"
    supported_kernels := template_data.supported_kernels
    target := template_data.target
    version := template_data.version }

/-- getIncludeStrategy from utils.ts: return the input unchanged when it
is one of the three literals, otherwise throw. -/
def getIncludeStrategy (input : String) : Except String String :=
  if input = "all" ∨ input = "stable-only" ∨ input = "prerelease-only" then
    Except.ok input
  else
    Except.error ("Invalid include strategy: " ++ input)

/-- shouldIncludeZip from utils.ts. -/
def shouldIncludeZip (zip : DownloadableZip) (include_strategy : String) :
    Bool :=
  if include_strategy = "stable-only" then !zip.prerelease
  else if include_strategy = "prerelease-only" then zip.prerelease
  else true

/-- Claim C3: the freshness comparison of applyPreviousResult is strict.
A zip whose updated_at equals the depot timestamp is treated as not newer
and receives the previous catalog entry found at its download_url (none
when absent); a zip whose updated_at is strictly later gets its result
forced to none regardless of any cached entry. -/
theorem applyPreviousResult_strict_tiebreak (zip : DownloadableZip)
    (m : DepotMap) (t : Int) :
    (zip.updated_at = t →
      applyPreviousResult zip m t = { zip with result := mapGet m zip.download_url })
    ∧ (zip.updated_at > t →
      applyPreviousResult zip m t = { zip with result := none }) := by
  constructor
  · intro h
    simp [applyPreviousResult, hasBeenUpdatedAfter, getPreviousResult, h]
  · intro h
    simp [applyPreviousResult, hasBeenUpdatedAfter, getPreviousResult, h]

/-- Concrete template used by several witnesses. -/
def sampleTemplate : BaseTemplate :=
  { metadata := { location := "https://example.com/download" }
    name := "example"
    pyObject := "pros.conductor.templates.base_template.BaseTemplate"
    supported_kernels := "4.1.2"
    target := "v5"
    version := "1.0.0" }

/-- Concrete candidate zip used by several witnesses. -/
def sampleZip : DownloadableZip :=
  { asset_id := 1
    download_url := "https://example.com/download"
    updated_at := 100
    prerelease := false
    result := none }

/-- Witness for C3 at a concrete zip, map and timestamp. -/
theorem applyPreviousResult_strict_tiebreak_witness :
    applyPreviousResult sampleZip [("https://example.com/download", sampleTemplate)] 100
      = { sampleZip with result := some sampleTemplate }
    ∧ applyPreviousResult sampleZip [("https://example.com/download", sampleTemplate)] 99
      = { sampleZip with result := none } := by
  constructor
  · have h :=
      (applyPreviousResult_strict_tiebreak sampleZip
        [("https://example.com/download", sampleTemplate)] 100).1 rfl
    rw [h]
    rfl
  · exact
      (applyPreviousResult_strict_tiebreak sampleZip
        [("https://example.com/download", sampleTemplate)] 99).2 (by decide)

/-- Claim C9: applyPreviousResult is idempotent for a fixed map and
timestamp, because the condition and the lookup only read fields that the
functional update leaves unchanged. -/
theorem applyPreviousResult_idempotent (zip : DownloadableZip)
    (m : DepotMap) (t : Int) :
    applyPreviousResult (applyPreviousResult zip m t) m t
      = applyPreviousResult zip m t := by
  cases zip
  simp [applyPreviousResult, hasBeenUpdatedAfter, getPreviousResult]

/-- Claim C6: the converter copies name, supported_kernels, target and
version from the py/state of the description, sets metadata.location to
the download url of the zip, and is independent of the system_files,
user_files and metadata record of the description (they are discarded). -/
theorem convertExternalTemplate_roundtrip (zip : DownloadableZip)
    (et : ExternalTemplate) :
    (convertExternalTemplateToBaseTemplate zip et).name = et.state.name
    ∧ (convertExternalTemplateToBaseTemplate zip et).supported_kernels
        = et.state.supported_kernels
    ∧ (convertExternalTemplateToBaseTemplate zip et).target = et.state.target
    ∧ (convertExternalTemplateToBaseTemplate zip et).version = et.state.version
    ∧ (convertExternalTemplateToBaseTemplate zip et).metadata
        = { location := zip.download_url }
    ∧ (∀ (md : List (String × String)) (sf uf : List String),
        convertExternalTemplateToBaseTemplate zip
          { et with
            state :=
              { et.state with metadata := md, system_files := sf, user_files := uf } }
          = convertExternalTemplateToBaseTemplate zip et) := by
  refine ⟨rfl, rfl, rfl, rfl, rfl, ?_⟩
  intro md sf uf
  rfl

/-- Claim C7: getDownloadableZips produces exactly one candidate per asset
whose name ends in .zip, in the same relative order, copying id to
asset_id, browser_download_url to download_url and updated_at verbatim,
inheriting the prerelease flag of the release, and starting with a null
result; every other asset is dropped, and an empty asset list yields an
empty candidate list. -/
theorem getDownloadableZips_spec (r : Release) :
    (getDownloadableZips r).map
        (fun z => (z.asset_id, z.download_url, z.updated_at, z.prerelease, z.result))
      = (r.assets.filter (fun a => strEndsWith a.name ".zip")).map
          (fun a =>
            (a.id, a.browser_download_url, a.updated_at, r.prerelease,
              (none : Option BaseTemplate)))
    ∧ (r.assets = [] → getDownloadableZips r = []) := by
  constructor
  · simp [getDownloadableZips, List.map_map]
  · intro h
    simp [getDownloadableZips, h]

/-- Witness for C7: the empty asset list yields the empty candidate list. -/
theorem getDownloadableZips_spec_witness :
    getDownloadableZips { assets := [], prerelease := false } = [] :=
  (getDownloadableZips_spec { assets := [], prerelease := false }).2 rfl

/-- Claim C8: getIncludeStrategy returns its input unchanged for exactly
the strings all, stable-only and prerelease-only, and fails with an error
for every other input string. -/
theorem getIncludeStrategy_spec (s : String) :
    ((s = "all" ∨ s = "stable-only" ∨ s = "prerelease-only") →
      getIncludeStrategy s = Except.ok s)
    ∧ (¬(s = "all" ∨ s = "stable-only" ∨ s = "prerelease-only") →
      getIncludeStrategy s
        = Except.error ("Invalid include strategy: " ++ s)) := by
  constructor
  · intro h
    simp [getIncludeStrategy, h]
  · intro h
    simp [getIncludeStrategy, h]

/-- Witness for C8 at the accepted string all and at the rejected empty
string. -/
theorem getIncludeStrategy_spec_witness :
    getIncludeStrategy "all" = Except.ok "all"
    ∧ getIncludeStrategy ""
        = Except.error ("Invalid include strategy: " ++ "") :=
  ⟨(getIncludeStrategy_spec "all").1 (Or.inl rfl),
    (getIncludeStrategy_spec "").2 (by decide)⟩

/-! ### Repository identifiers (utils.ts toRepositoryIdentifier) -/

/-- Embedding of the JavaScript string split on a one-character separator,
as used by `owner_and_repo_name.split("/")`: the list of maximal groups
between separator occurrences, with empty groups kept. -/
def splitOnChar (sep : Char) : List Char → List (List Char)
  | [] => [[]]
  | c :: rest =>
    if c = sep then [] :: splitOnChar sep rest
    else
      match splitOnChar sep rest with
      | [] => [[c]]
      | g :: gs => (c :: g) :: gs

/-- Structure of splitOnChar: the first group is the longest prefix free
of the separator, and when the separator occurs the remaining groups are
the split of the suffix after its first occurrence. -/
theorem splitOnChar_cons (sep : Char) (l : List Char) :
    splitOnChar sep l =
      l.takeWhile (fun c => c ≠ sep) ::
        (if sep ∈ l then
          splitOnChar sep ((l.dropWhile (fun c => c ≠ sep)).tail)
        else []) := by
  induction l with
  | nil => simp [splitOnChar]
  | cons c rest ih =>
    by_cases hc : c = sep
    · subst hc
      simp [splitOnChar, List.takeWhile_cons, List.dropWhile_cons]
    · rw [splitOnChar, if_neg hc, ih]
      simp [List.takeWhile_cons, List.dropWhile_cons, hc, List.mem_cons,
        Ne.symm hc]

/-- toRepositoryIdentifier from utils.ts: throw when the input has no
slash, otherwise destructure the first two components of the split. -/
def toRepositoryIdentifier (s : String) : Except String RepositoryIdentifier :=
  if ('/' : Char) ∈ s.toList then
    let parts := splitOnChar '/' s.toList
    Except.ok { owner := ⟨parts.headD []⟩, repo := ⟨(parts.drop 1).headD []⟩ }
  else
    Except.error ("Invalid repository name: " ++ s)

/-- Claim C5 counterexample: on the input a/b/c, which contains two
slashes, the code returns the component between the first and second
slash as the repo, not the whole substring after the first slash that the
claim demands. -/
theorem toRepositoryIdentifier_counterexample :
    toRepositoryIdentifier "a/b/c" = Except.ok { owner := "a", repo := "b" }
    ∧ ("b" : String) ≠ "b/c" := by
  exact ⟨rfl, by decide⟩

/-- Claim C5 as amended: identifier construction fails for every string
without a slash; for a string with at least one slash, the owner is the
substring before the first slash and the repo is the substring strictly
between the first slash and the following slash or the end of the string
(both possibly empty). -/
theorem toRepositoryIdentifier_amended (s : String) :
    (('/' : Char) ∉ s.toList →
      toRepositoryIdentifier s
        = Except.error ("Invalid repository name: " ++ s))
    ∧ (('/' : Char) ∈ s.toList →
      toRepositoryIdentifier s
        = Except.ok
            { owner := ⟨s.toList.takeWhile (fun c => c ≠ '/')⟩
              repo :=
                ⟨((s.toList.dropWhile (fun c => c ≠ '/')).tail).takeWhile
                  (fun c => c ≠ '/')⟩ }) := by
  constructor
  · intro h
    have h2 : ('/' : Char) ∉ s.data := h
    simp [toRepositoryIdentifier, String.toList, h2]
  · intro h
    have h2 : ('/' : Char) ∈ s.data := h
    rw [toRepositoryIdentifier, if_pos h]
    rw [splitOnChar_cons, splitOnChar_cons]
    simp [String.toList, h2]

/-- Witness for the amended C5: a slash-free input fails, and a normal
owner/repo input splits at the slash. -/
theorem toRepositoryIdentifier_amended_witness :
    toRepositoryIdentifier "jerrylum"
      = Except.error ("Invalid repository name: " ++ "jerrylum")
    ∧ toRepositoryIdentifier "jerrylum/PROS"
      = Except.ok { owner := "jerrylum", repo := "PROS" } := by
  constructor
  · exact (toRepositoryIdentifier_amended "jerrylum").1 (by decide)
  · have h := (toRepositoryIdentifier_amended "jerrylum/PROS").2 (by decide)
    rw [h]
    rfl

/-! ### The candidate pipeline of run (main.ts) -/

/-- Embedding of the zips pipeline inside run (main.ts): extract the
candidates of every release, flatten, apply the inclusion strategy
filter, apply the pre-emptive exclusion filter, then resolve previous
results. The free variables of the pipeline closures are parameters:
the previous catalog map, the depot last-updated instant, and whether a
previous depot file was obtained (curr_depot_file not null). -/
def runZips (releases : List Release) (include_strategy : String)
    (curr_depot_map : DepotMap) (curr_depot_last_updated : Int)
    (curr_depot_file_obtained : Bool) : List DownloadableZip :=
  ((((releases.map getDownloadableZips).flatten).filter
        (fun zip => shouldIncludeZip zip include_strategy)).filter
      (fun zip =>
        !(hasBeenUpdatedAfter zip curr_depot_last_updated
          && (getPreviousResult zip curr_depot_map).isNone
          && curr_depot_file_obtained))).map
    (fun zip => applyPreviousResult zip curr_depot_map curr_depot_last_updated)

/-- Release holding one zip asset strictly newer than the depot instant
used below. -/
def freshRelease : Release :=
  { assets :=
      [{ id := 1, browser_download_url := "https://example.com/new.zip",
         updated_at := 200, name := "new.zip" }]
    prerelease := false }

/-- Release holding one zip asset not newer than the depot instant used
below. -/
def staleRelease : Release :=
  { assets :=
      [{ id := 2, browser_download_url := "https://example.com/stale.zip",
         updated_at := 50, name := "stale.zip" }]
    prerelease := false }

/-- Claim C1, evaluated at the failing input: with a previous depot file
obtained (timestamp 100, empty previous catalog), the pipeline drops the
strictly newer candidate that has no previous result, keeps the
not-newer candidate that has no previous result, and with no previous
depot file it drops nothing. The spec, the comment above the filter and
the README all require the opposite polarity for the first two cases:
known-invalid (not newer, no previous result) candidates are the ones to
drop, and strictly newer candidates must be fetched. -/
theorem runZips_drops_new_keeps_stale :
    runZips [freshRelease] "all" [] 100 true = []
    ∧ runZips [staleRelease] "all" [] 100 true
        = [{ asset_id := 2, download_url := "https://example.com/stale.zip",
             updated_at := 50, prerelease := false, result := none }]
    ∧ runZips [freshRelease] "all" [] 100 false
        = [{ asset_id := 1, download_url := "https://example.com/new.zip",
             updated_at := 200, prerelease := false, result := none }] := by
  refine ⟨by decide, by decide, by decide⟩

/-! ### The publish protocol (utils.ts pushFile) -/

/-- Model of a JavaScript error value as inspected by pushFile: an
optional numeric status field. -/
structure GhError where
  status : Option Int
deriving DecidableEq, Repr

/-- The not-found test of pushFile: the error carries a numeric status
field equal to 404. -/
def isNotFound (e : GhError) : Bool :=
  match e.status with
  | some s => s == 404
  | none => false

/-- One entry of a createTree request payload. The TypeScript field named
type is rendered here as kind. -/
structure TreeEntry where
  path : String
  mode : String
  kind : String
  content : String
deriving DecidableEq, Repr

/-- A GitHub API request issued by pushFile, with its payload. -/
inductive GitOp where
  | getBranch (branch : String)
  | createOrUpdateFile (branch path message content : String) (sha : Option String)
  | createTree (tree : List TreeEntry)
  | createCommit (message treeSha : String) (parents : List String)
  | createRef (ref sha : String)
deriving DecidableEq, Repr

/-- Environment supplying the response of each GitHub API call that
pushFile may issue. -/
structure PushEnv where
  getBranch : Except GhError Unit
  createOrUpdateFile : Except GhError Unit
  createTree : Except GhError String
  createCommit : Except GhError String
  createRef : Except GhError Unit

/-- The catch handler of pushFile: on a not-found error run the orphan
bootstrap sequence (tree with the single catalog file, root commit with
no parents, branch reference), stopping at the first failing step; on
any other error return false at once. The trace accumulates the requests
issued so far. -/
def pushFileCatch (env : PushEnv) (branch path content commit_message : String)
    (e : GhError) (t : List GitOp) : Bool × List GitOp :=
  if isNotFound e then
    let t1 := t ++ [GitOp.createTree
      [{ path := path, mode := "100644", kind := "blob", content := content }]]
    match env.createTree with
    | Except.error _ => (false, t1)
    | Except.ok treeSha =>
      let t2 := t1 ++ [GitOp.createCommit commit_message treeSha []]
      match env.createCommit with
      | Except.error _ => (false, t2)
      | Except.ok commitSha =>
        let t3 := t2 ++ [GitOp.createRef ("refs/heads/" ++ branch) commitSha]
        match env.createRef with
        | Except.error _ => (false, t3)
        | Except.ok _ => (true, t3)
  else (false, t)

/-- pushFile from utils.ts: check branch existence, update the file on
the existing branch, and on an error from either of those calls enter the
catch handler. Returns the success flag and the trace of issued requests. -/
def pushFile (env : PushEnv) (branch path content commit_message : String)
    (old_sha : Option String) : Bool × List GitOp :=
  let t0 := [GitOp.getBranch branch]
  match env.getBranch with
  | Except.error e => pushFileCatch env branch path content commit_message e t0
  | Except.ok _ =>
    let t1 := t0 ++
      [GitOp.createOrUpdateFile branch path commit_message content old_sha]
    match env.createOrUpdateFile with
    | Except.ok _ => (true, t1)
    | Except.error e => pushFileCatch env branch path content commit_message e t1

/-- Claim C4: when the branch existence check fails with an error that is
not a 404 not-found, pushFile returns false having issued only the branch
query, attempting none of the orphan bootstrap steps; when it fails with
a 404 and the bootstrap calls succeed, pushFile issues exactly a tree
containing the one catalog file, a commit against that tree with an empty
parents list, and the branch reference pointing at that commit. -/
theorem pushFile_branch_check (env : PushEnv)
    (branch path content msg : String) (old_sha : Option String) :
    (∀ e, env.getBranch = Except.error e → isNotFound e = false →
      pushFile env branch path content msg old_sha
        = (false, [GitOp.getBranch branch]))
    ∧ (∀ e treeSha commitSha,
        env.getBranch = Except.error e → isNotFound e = true →
        env.createTree = Except.ok treeSha →
        env.createCommit = Except.ok commitSha →
        env.createRef = Except.ok () →
        pushFile env branch path content msg old_sha
          = (true,
              [GitOp.getBranch branch,
               GitOp.createTree
                 [{ path := path, mode := "100644", kind := "blob",
                    content := content }],
               GitOp.createCommit msg treeSha [],
               GitOp.createRef ("refs/heads/" ++ branch) commitSha])) := by
  constructor
  · intro e he hnf
    simp [pushFile, he, pushFileCatch, hnf]
  · intro e treeSha commitSha he hnf ht hc hr
    simp [pushFile, he, pushFileCatch, hnf, ht, hc, hr]

/-- Environment whose branch check fails with a 404 and whose bootstrap
calls all succeed. -/
def pushEnv404 : PushEnv :=
  { getBranch := Except.error { status := some 404 }
    createOrUpdateFile := Except.ok ()
    createTree := Except.ok "treesha"
    createCommit := Except.ok "commitsha"
    createRef := Except.ok () }

/-- Environment whose branch check fails with a 500. -/
def pushEnv500 : PushEnv :=
  { pushEnv404 with getBranch := Except.error { status := some 500 } }

/-- Witness for C4 at concrete environments: a 500 on the branch check
returns false with no bootstrap request, and a 404 runs the full
bootstrap sequence. -/
theorem pushFile_branch_check_witness :
    pushFile pushEnv500 "depot" "depot.json" "[]" "msg" none
      = (false, [GitOp.getBranch "depot"])
    ∧ pushFile pushEnv404 "depot" "depot.json" "[]" "msg" none
      = (true,
          [GitOp.getBranch "depot",
           GitOp.createTree
             [{ path := "depot.json", mode := "100644", kind := "blob",
                content := "[]" }],
           GitOp.createCommit "msg" "treesha" [],
           GitOp.createRef ("refs/heads/" ++ "depot") "commitsha"]) := by
  constructor
  · exact
      (pushFile_branch_check pushEnv500 "depot" "depot.json" "[]" "msg" none).1
        { status := some 500 } rfl (by decide)
  · exact
      (pushFile_branch_check pushEnv404 "depot" "depot.json" "[]" "msg" none).2
        { status := some 404 } "treesha" "commitsha" rfl (by decide) rfl rfl rfl

/-! ### The diff and commit-message generator (utils.ts getCommitMessage) -/

/-- One iteration of the getCommitMessage loop: look the new item up in
the remaining old map, count it as added when absent, as updated when
present with different content, and remove its location from the map. -/
def gcmStep (st : DepotMap × Nat × Nat) (item : BaseTemplate) :
    DepotMap × Nat × Nat :=
  match mapGet st.1 item.metadata.location with
  | none => (mapDelete st.1 item.metadata.location, st.2.1 + 1, st.2.2)
  | some old_item =>
    if old_item = item then
      (mapDelete st.1 item.metadata.location, st.2.1, st.2.2)
    else
      (mapDelete st.1 item.metadata.location, st.2.1, st.2.2 + 1)

/-- getCommitMessage from utils.ts (the content-comparison variant).
The structural JSON comparison of two schema-validated entries is
modelled by decidable equality of the records. The index-0 access in the
release branch is modelled by head?, with none standing for the crash on
an out-of-bounds access. -/
def getCommitMessage (old_depot new_depot : List BaseTemplate) :
    Option String :=
  let res := new_depot.foldl gcmStep (buildMap old_depot, 0, 0)
  let removed_count := res.1.length
  let added_count := res.2.1
  let updated_count := res.2.2
  if added_count = 1 ∧ updated_count = 0 ∧ removed_count = 0 then
    match new_depot.head? with
    | some e => some ("Release version " ++ e.version)
    | none => none
  else some "Update one or more version(s)"

/-- Membership of a string in a list of strings, as a boolean. -/
def memS (k : String) : List String → Bool
  | [] => false
  | x :: rest => if x = k then true else memS k rest

/-- Locations of the entries of a depot, in order. -/
def locationsOf (d : List BaseTemplate) : List String :=
  d.map (fun e => e.metadata.location)

/-- First entry of a depot carrying the given location. -/
def findByLocation : List BaseTemplate → String → Option BaseTemplate
  | [], _ => none
  | e :: rest, k =>
    if e.metadata.location = k then some e else findByLocation rest k

/-- Entries of the new depot whose location does not occur in the old
depot: the additions. -/
def addedEntries (old_depot new_depot : List BaseTemplate) :
    List BaseTemplate :=
  new_depot.filter (fun e => !memS e.metadata.location (locationsOf old_depot))

/-- Entries of the new depot whose location occurs in the old depot with
different content: the updates. -/
def updatedEntries (old_depot new_depot : List BaseTemplate) :
    List BaseTemplate :=
  new_depot.filter (fun e =>
    match findByLocation old_depot e.metadata.location with
    | none => false
    | some o => if o = e then false else true)

/-- Entries of the old depot whose location does not occur in the new
depot: the removals. -/
def removedEntries (old_depot new_depot : List BaseTemplate) :
    List BaseTemplate :=
  old_depot.filter (fun e => !memS e.metadata.location (locationsOf new_depot))

/-- Whether the loop counts the entry as added against the given map. -/
def addedFlag (m : DepotMap) (e : BaseTemplate) : Bool :=
  (mapGet m e.metadata.location).isNone

/-- Whether the loop counts the entry as updated against the given map. -/
def updatedFlag (m : DepotMap) (e : BaseTemplate) : Bool :=
  match mapGet m e.metadata.location with
  | none => false
  | some o => if o = e then false else true

/-- Deletion of the locations of a whole depot from a map, in order. -/
def deleteAll (m : DepotMap) (d : List BaseTemplate) : DepotMap :=
  d.foldl (fun m e => mapDelete m e.metadata.location) m

theorem mapDelete_eq_filter (m : DepotMap) (k : String) :
    mapDelete m k = m.filter (fun p => !decide (p.1 = k)) := by
  induction m with
  | nil => rfl
  | cons p rest ih =>
    obtain ⟨k2, v⟩ := p
    by_cases h : k2 = k
    · simp [mapDelete, List.filter_cons, h, ih]
    · simp [mapDelete, List.filter_cons, h, ih]

theorem mapGet_mapDelete_ne (m : DepotMap) (k k2 : String) (h : k ≠ k2) :
    mapGet (mapDelete m k) k2 = mapGet m k2 := by
  induction m with
  | nil => rfl
  | cons p rest ih =>
    obtain ⟨k3, v⟩ := p
    by_cases h3 : k3 = k
    · subst h3
      have h2 : ¬ k3 = k2 := h
      simp [mapDelete, mapGet, h2, ih]
    · by_cases h2 : k3 = k2
      · subst h2
        simp [mapDelete, mapGet, h3]
      · simp [mapDelete, mapGet, h3, h2, ih]

theorem mapSet_fresh (m : DepotMap) (k : String) (v : BaseTemplate)
    (h : ∀ p ∈ m, p.1 ≠ k) : mapSet m k v = m ++ [(k, v)] := by
  induction m with
  | nil => rfl
  | cons p rest ih =>
    obtain ⟨k2, v2⟩ := p
    have hk2 : k2 ≠ k := h (k2, v2) (by simp)
    simp only [mapSet, if_neg hk2, List.cons_append]
    rw [ih (fun q hq => h q (by simp [hq]))]

theorem buildMap_go (d : List BaseTemplate) (m : DepotMap)
    (hd : (locationsOf d).Nodup)
    (hdisj : ∀ p ∈ m, ¬ p.1 ∈ locationsOf d) :
    d.foldl (fun m e => mapSet m e.metadata.location e) m
      = m ++ d.map (fun e => (e.metadata.location, e)) := by
  induction d generalizing m with
  | nil => simp
  | cons e rest ih =>
    have hmem : ¬ e.metadata.location ∈ locationsOf rest := by
      have := hd
      simp only [locationsOf, List.map_cons, List.nodup_cons] at this
      exact this.1
    have hrest : (locationsOf rest).Nodup := by
      have := hd
      simp only [locationsOf, List.map_cons, List.nodup_cons] at this
      exact this.2
    have hset : mapSet m e.metadata.location e = m ++ [(e.metadata.location, e)] := by
      refine mapSet_fresh m _ e (fun p hp => ?_)
      intro hpk
      exact hdisj p hp (by simp [locationsOf, hpk])
    rw [List.foldl_cons, hset,
      ih (m ++ [(e.metadata.location, e)]) hrest ?_]
    · simp
    · intro p hp
      rcases List.mem_append.mp hp with hp1 | hp2
      · intro hmem2
        exact hdisj p hp1 (by simp [locationsOf]; right; simpa [locationsOf] using hmem2)
      · have : p = (e.metadata.location, e) := by simpa using hp2
        subst this
        exact hmem

theorem buildMap_eq (d : List BaseTemplate) (hd : (locationsOf d).Nodup) :
    buildMap d = d.map (fun e => (e.metadata.location, e)) := by
  have := buildMap_go d [] hd (by simp)
  simpa [buildMap] using this

theorem mapGet_pairs (d : List BaseTemplate) (k : String) :
    mapGet (d.map (fun e => (e.metadata.location, e))) k = findByLocation d k := by
  induction d with
  | nil => rfl
  | cons e rest ih =>
    by_cases h : e.metadata.location = k
    · simp [mapGet, findByLocation, h]
    · simp [mapGet, findByLocation, h, ih]

theorem findByLocation_isNone (d : List BaseTemplate) (k : String) :
    (findByLocation d k).isNone = !memS k (locationsOf d) := by
  induction d with
  | nil => rfl
  | cons e rest ih =>
    by_cases h : e.metadata.location = k
    · simp [findByLocation, memS, locationsOf, h]
    · simp only [findByLocation, if_neg h, locationsOf, List.map_cons]
      rw [ih]
      simp [memS, h, locationsOf]

theorem deleteAll_eq_filter (new_depot : List BaseTemplate) (m : DepotMap) :
    deleteAll m new_depot
      = m.filter (fun p => !memS p.1 (locationsOf new_depot)) := by
  induction new_depot generalizing m with
  | nil =>
    simp [deleteAll, locationsOf, memS]
  | cons e rest ih =>
    have h1 : deleteAll m (e :: rest)
        = deleteAll (mapDelete m e.metadata.location) rest := rfl
    rw [h1, ih, mapDelete_eq_filter, List.filter_filter]
    refine List.filter_congr (fun p _ => ?_)
    by_cases hp : p.1 = e.metadata.location
    · simp [memS, locationsOf, hp]
    · simp only [locationsOf, List.map_cons, memS]
      rw [if_neg (fun hh => hp hh.symm)]
      simp [hp, locationsOf]

theorem gcmFold_eq (new_depot : List BaseTemplate) (m : DepotMap)
    (a u : Nat) (h : (locationsOf new_depot).Nodup) :
    new_depot.foldl gcmStep (m, a, u) =
      (deleteAll m new_depot,
        a + (new_depot.filter (addedFlag m)).length,
        u + (new_depot.filter (updatedFlag m)).length) := by
  induction new_depot generalizing m a u with
  | nil => simp [deleteAll]
  | cons e rest ih =>
    have hmem : ¬ e.metadata.location ∈ locationsOf rest := by
      have := h
      simp only [locationsOf, List.map_cons, List.nodup_cons] at this
      exact this.1
    have hrest : (locationsOf rest).Nodup := by
      have := h
      simp only [locationsOf, List.map_cons, List.nodup_cons] at this
      exact this.2
    have hne : ∀ f ∈ rest, e.metadata.location ≠ f.metadata.location := by
      intro f hf hEq
      exact hmem (by rw [hEq]; exact List.mem_map_of_mem _ hf)
    have hA : rest.filter (addedFlag (mapDelete m e.metadata.location))
        = rest.filter (addedFlag m) := by
      refine List.filter_congr (fun f hf => ?_)
      simp [addedFlag, mapGet_mapDelete_ne m _ _ (hne f hf)]
    have hU : rest.filter (updatedFlag (mapDelete m e.metadata.location))
        = rest.filter (updatedFlag m) := by
      refine List.filter_congr (fun f hf => ?_)
      simp [updatedFlag, mapGet_mapDelete_ne m _ _ (hne f hf)]
    have hDel : deleteAll m (e :: rest)
        = deleteAll (mapDelete m e.metadata.location) rest := rfl
    cases hm : mapGet m e.metadata.location with
    | none =>
      have hstep : gcmStep (m, a, u) e
          = (mapDelete m e.metadata.location, a + 1, u) := by
        simp [gcmStep, hm]
      rw [List.foldl_cons, hstep,
        ih (mapDelete m e.metadata.location) (a + 1) u hrest, hDel]
      have hfA : addedFlag m e = true := by simp [addedFlag, hm]
      have hfU : updatedFlag m e = false := by simp [updatedFlag, hm]
      simp only [List.filter_cons, hfA, hfU, if_true, Bool.false_eq_true,
        if_false, List.length_cons, hA, hU]
      refine Prod.ext rfl (Prod.ext ?_ rfl)
      simp
      omega
    | some o =>
      by_cases heq : o = e
      · have hstep : gcmStep (m, a, u) e
            = (mapDelete m e.metadata.location, a, u) := by
          simp [gcmStep, hm, heq]
        rw [List.foldl_cons, hstep,
          ih (mapDelete m e.metadata.location) a u hrest, hDel]
        have hfA : addedFlag m e = false := by simp [addedFlag, hm]
        have hfU : updatedFlag m e = false := by simp [updatedFlag, hm, heq]
        simp only [List.filter_cons, hfA, hfU, Bool.false_eq_true, if_false,
          hA, hU]
      · have hstep : gcmStep (m, a, u) e
            = (mapDelete m e.metadata.location, a, u + 1) := by
          simp [gcmStep, hm, heq]
        rw [List.foldl_cons, hstep,
          ih (mapDelete m e.metadata.location) a (u + 1) hrest, hDel]
        have hfA : addedFlag m e = false := by simp [addedFlag, hm]
        have hfU : updatedFlag m e = true := by simp [updatedFlag, hm, heq]
        simp only [List.filter_cons, hfA, hfU, if_true, Bool.false_eq_true,
          if_false, List.length_cons, hA, hU]
        refine Prod.ext rfl (Prod.ext rfl ?_)
        simp
        omega

theorem addedFlag_buildMap (old_depot : List BaseTemplate)
    (hold : (locationsOf old_depot).Nodup) (e : BaseTemplate) :
    addedFlag (buildMap old_depot) e
      = !memS e.metadata.location (locationsOf old_depot) := by
  rw [addedFlag, buildMap_eq old_depot hold, mapGet_pairs,
    findByLocation_isNone]

theorem updatedFlag_buildMap (old_depot : List BaseTemplate)
    (hold : (locationsOf old_depot).Nodup) (e : BaseTemplate) :
    updatedFlag (buildMap old_depot) e
      = (match findByLocation old_depot e.metadata.location with
          | none => false
          | some o => if o = e then false else true) := by
  rw [updatedFlag, buildMap_eq old_depot hold, mapGet_pairs]

/-- Claim C2 as amended: with depots whose locations are unique (the
documented catalog invariant), getCommitMessage classifies each new entry
against the old depot by location (absent location counts as added,
present location with different content counts as updated, never-matched
old locations count as removed); it returns Release version v, where v is
the version of the first entry of the new depot, exactly when one entry
was added and none was updated or removed, and the fixed string Update
one or more version(s) in every other case. -/
theorem getCommitMessage_classification (old_depot new_depot : List BaseTemplate)
    (hold : (locationsOf old_depot).Nodup)
    (hnew : (locationsOf new_depot).Nodup) :
    getCommitMessage old_depot new_depot =
      if (addedEntries old_depot new_depot).length = 1
          ∧ (updatedEntries old_depot new_depot).length = 0
          ∧ (removedEntries old_depot new_depot).length = 0 then
        new_depot.head?.map (fun e => "Release version " ++ e.version)
      else some "Update one or more version(s)" := by
  have hA : new_depot.filter (addedFlag (buildMap old_depot))
      = addedEntries old_depot new_depot := by
    refine List.filter_congr (fun e _ => ?_)
    rw [addedFlag_buildMap old_depot hold e]
  have hU : new_depot.filter (updatedFlag (buildMap old_depot))
      = updatedEntries old_depot new_depot := by
    refine List.filter_congr (fun e _ => ?_)
    rw [updatedFlag_buildMap old_depot hold e]
  have hR : (deleteAll (buildMap old_depot) new_depot).length
      = (removedEntries old_depot new_depot).length := by
    rw [deleteAll_eq_filter, buildMap_eq old_depot hold, List.filter_map,
      List.length_map]
    rfl
  simp only [getCommitMessage]
  rw [gcmFold_eq new_depot (buildMap old_depot) 0 0 hnew]
  simp only [hA, hU, hR, Nat.zero_add]
  by_cases hc : (addedEntries old_depot new_depot).length = 1
      ∧ (updatedEntries old_depot new_depot).length = 0
      ∧ (removedEntries old_depot new_depot).length = 0
  · rw [if_pos hc, if_pos hc]
    cases new_depot <;> simp
  · rw [if_neg hc, if_neg hc]

/-- Witness for the amended C2: adding a single entry to an empty depot
produces the release message with the version of that entry. -/
theorem getCommitMessage_classification_witness :
    getCommitMessage [] [sampleTemplate] = some "Release version 1.0.0" := by
  rw [getCommitMessage_classification [] [sampleTemplate]
    (by simp [locationsOf]) (by simp [locationsOf])]
  decide

/-- Old entry shared by the C2 counterexample depots. -/
def keptTemplate : BaseTemplate :=
  { metadata := { location := "https://example.com/d1" }
    name := "a"
    pyObject := "pros.conductor.templates.base_template.BaseTemplate"
    supported_kernels := "k"
    target := "v5"
    version := "1.0.0" }

/-- Entry added by the C2 counterexample depots. -/
def addedTemplate : BaseTemplate :=
  { metadata := { location := "https://example.com/d2" }
    name := "b"
    pyObject := "pros.conductor.templates.base_template.BaseTemplate"
    supported_kernels := "k"
    target := "v5"
    version := "2.0.0" }

/-- Claim C2 counterexample: going from the depot holding only
keptTemplate to the depot holding keptTemplate then addedTemplate adds
exactly one entry and updates and removes none, yet the code announces
the version of the entry at index 0 of the new depot, not the version of
the added entry as the claim demands. -/
theorem getCommitMessage_counterexample :
    addedEntries [keptTemplate] [keptTemplate, addedTemplate] = [addedTemplate]
    ∧ updatedEntries [keptTemplate] [keptTemplate, addedTemplate] = []
    ∧ removedEntries [keptTemplate] [keptTemplate, addedTemplate] = []
    ∧ getCommitMessage [keptTemplate] [keptTemplate, addedTemplate]
        = some "Release version 1.0.0"
    ∧ ("Release version 1.0.0" : String)
        ≠ "Release version " ++ addedTemplate.version := by
  refine ⟨by decide, by decide, by decide, by decide, by decide⟩

/-- Claim C10: getCommitMessage totally returns a string for every pair
of depots: when the release branch is taken the new depot is necessarily
non-empty, so the index-0 access is in bounds and no crash (modelled by
none) is possible. -/
theorem getCommitMessage_total (old_depot new_depot : List BaseTemplate) :
    (getCommitMessage old_depot new_depot).isSome = true := by
  cases new_depot with
  | nil => simp [getCommitMessage]
  | cons e rest =>
    simp [getCommitMessage, apply_ite Option.isSome]

end ProsDepot
